import Mathlib

/-!
Verification development for the S3 remote-transfer handler
(`src/opentaskpy/addons/aws/remotehandlers/s3.py`).

The handler is embedded shallowly: each method becomes a Lean function that
returns the ordered trace of backend (boto3) calls it issues together with its
return value.  The backend itself (S3), the local filesystem and the logger are
modelled as inputs:

* `list_objects_v2` responses are a list of `ListResponse` pages, given in the
  order the backend returns them to successive calls;
* `head_object` metadata is a function `String → FileAttr`;
* per-file success of `upload_file` / `copy` is a function `String → Bool`
  (in Python a failure raises an exception caught per file);
* the result of `glob.glob` on the staging directory is a list of paths.

Python's `re.match` and `re.sub` are modelled with a small regular-expression
engine based on Brzozowski derivatives.  Pattern strings are embedded already
parsed as a `PyPattern` (a leading `^` in the source pattern becomes
`anchoredStart := true`); replacement strings are treated as literal text
(the repository only uses literal replacements, no backreferences).
-/

/-- Regular expressions over characters. -/
inductive Regex where
  | emptyset : Regex
  | epsilon : Regex
  | char (c : Char) : Regex
  | concat (r₁ r₂ : Regex) : Regex
  | alt (r₁ r₂ : Regex) : Regex
  | star (r : Regex) : Regex
deriving DecidableEq

/-- Does the regex accept the empty string? -/
def Regex.nullable : Regex → Bool
  | .emptyset => false
  | .epsilon => true
  | .char _ => false
  | .concat r₁ r₂ => r₁.nullable && r₂.nullable
  | .alt r₁ r₂ => r₁.nullable || r₂.nullable
  | .star _ => true

/-- Brzozowski derivative of a regex with respect to one character. -/
def Regex.deriv : Regex → Char → Regex
  | .emptyset, _ => .emptyset
  | .epsilon, _ => .emptyset
  | .char c, a => if a = c then .epsilon else .emptyset
  | .concat r₁ r₂, a =>
      if r₁.nullable then .alt (.concat (r₁.deriv a) r₂) (r₂.deriv a)
      else .concat (r₁.deriv a) r₂
  | .alt r₁ r₂, a => .alt (r₁.deriv a) (r₂.deriv a)
  | .star r, a => .concat (r.deriv a) (.star r)

/-- Whole-list acceptance (the semantics of Python `re.fullmatch`). -/
def Regex.matchList : Regex → List Char → Bool
  | r, [] => r.nullable
  | r, c :: cs => (r.deriv c).matchList cs

/-- Does the regex accept SOME initial segment of the list?  This is the
semantics of Python `re.match`: a match anchored at the start of the string
but free to stop before its end. -/
def Regex.matchesAtStart : Regex → List Char → Bool
  | r, [] => r.nullable
  | r, c :: cs => r.nullable || (r.deriv c).matchesAtStart cs

/-- Length of the longest initial segment of the list accepted by the regex
(`none` when no initial segment, not even the empty one, is accepted). -/
def Regex.longestMatchLen : Regex → List Char → Option Nat
  | r, [] => if r.nullable then some 0 else none
  | r, c :: cs =>
      match (r.deriv c).longestMatchLen cs with
      | some n => some (n + 1)
      | none => if r.nullable then some 0 else none

/-- Literal regex recognising exactly the characters of the list in order. -/
def Regex.ofList : List Char → Regex
  | [] => .epsilon
  | c :: cs => .concat (.char c) (Regex.ofList cs)

/-- Literal regex recognising exactly the given string. -/
def Regex.lit (s : String) : Regex := Regex.ofList s.toList

/-- A compiled Python pattern: a leading `^` in the pattern source is recorded
as `anchoredStart` (it restricts `re.sub` to position 0; `re.match` is
anchored at the start anyway). -/
structure PyPattern where
  anchoredStart : Bool
  re : Regex
deriving DecidableEq

/-- Python `re.match(pattern, s)` viewed as a Boolean: does the pattern match
at the START of `s` (not necessarily the whole of `s`)? -/
def reMatch (p : PyPattern) (s : String) : Bool :=
  p.re.matchesAtStart s.toList

/-- Modelled from the spec's words "full-match semantics (the whole name, not
a substring or prefix)": whole-string acceptance, the semantics of Python
`re.fullmatch`.  Used to compare the spec's claimed filter semantics with the
`re.match` semantics the source actually uses. -/
def fullMatch (p : PyPattern) (s : String) : Bool :=
  p.re.matchList s.toList

/-- Worker for `re.sub`: scans the character list left to right, replacing
each leftmost-longest match of the pattern by `repl` (leftmost-longest agrees
with Python's backtracking engine on every pattern appearing in this
repository).  `atStart` records whether we are still at position 0 (the only
position where an anchored pattern may match).  An empty match emits the
replacement and advances one character, as in Python 3.7+.  `fuel` is a
structural-termination counter; `fuel ≥ length + 1` is always sufficient
because every step consumes at least one character. -/
def reSubAux (anch : Bool) (r : Regex) (repl : List Char) :
    Nat → List Char → Bool → List Char
  | 0, cs, _ => cs
  | _ + 1, [], atStart =>
      if ((!anch) || atStart) && r.nullable then repl else []
  | fuel + 1, c :: rest, atStart =>
      if anch && (!atStart) then c :: rest
      else
        match r.longestMatchLen (c :: rest) with
        | none => c :: reSubAux anch r repl fuel rest false
        | some 0 => repl ++ c :: reSubAux anch r repl fuel rest false
        | some (n + 1) => repl ++ reSubAux anch r repl fuel (rest.drop n) false

/-- Python `re.sub(pattern, repl, s)` with a literal replacement string. -/
def reSub (p : PyPattern) (repl : String) (s : String) : String :=
  String.mk (reSubAux p.anchoredStart p.re repl.toList (s.length + 1) s.toList true)

/-- Split a character list on `'/'`, keeping empty segments, exactly as
Python `str.split('/')` does (`cur` is the current segment, reversed). -/
def splitSlashAux : List Char → List Char → List (List Char)
  | [], cur => [cur.reverse]
  | c :: cs, cur =>
      if c = '/' then cur.reverse :: splitSlashAux cs []
      else splitSlashAux cs (c :: cur)

/-- Python `key.split('/')[-1]`: the final path segment.  Python `split` with
separator `'/'` returns a singleton list on the empty string, so the segment
list is never empty and the default of `getLastD` is never used. -/
def pyBasename (s : String) : String :=
  String.mk ((splitSlashAux s.toList []).getLastD [])

/-- The fields of the transfer specification dictionary that the handler's
post-construction methods read (`spec['postCopyAction']`). -/
structure PostCopyActionSpec where
  action : String
  destination : String
  pattern : PyPattern
  sub : String
deriving DecidableEq

/-- The fields of the transfer specification dictionary that the handler's
post-construction methods read (`self.spec`), plus the resolved
`bucket_owner_full_control` flag computed in `__init__` (source default:
`True` when absent from the protocol section). -/
structure TransferSpec where
  bucket : String
  directory : String
  postCopyAction : PostCopyActionSpec
  bucket_owner_full_control : Bool
deriving DecidableEq

/-- The `list_objects_v2` keyword arguments the Lister sends on one call.
`pfx` is the optional `Prefix` argument (absent when no directory is given;
Python also omits it for a falsy empty-string directory, which the `Option`
models). -/
structure ListKwargs where
  bucket : String
  maxKeys : Nat
  pfx : Option String
  continuationToken : Option String
deriving DecidableEq

/-- One `list_objects_v2` response page: `KeyCount`, the object keys of
`Contents`, and the optional `NextContinuationToken`. -/
structure ListResponse where
  keyCount : Nat
  contents : List String
  nextContinuationToken : Option String
deriving DecidableEq

/-- The metadata `head_object` reports for a key: `ContentLength` and
`LastModified.timestamp()` (an absolute point in time; embedded as an
integer, which is faithful for every comparison the handler makes since it
only stores the value). -/
structure FileAttr where
  size : Nat
  modified_time : Int
deriving DecidableEq

/-- One backend (boto3 S3 client) call, in the order issued.  `copyObject` is
`copy_object` (same-bucket disposition copy); `copy` is the managed
`s3_client.copy` used for bucket-to-bucket transfer; `deleteObjects` carries
the key list of its `Delete.Objects` argument and the `Quiet` flag. -/
inductive S3Call where
  | copyObject (bucket srcBucket srcKey destKey : String) : S3Call
  | deleteObjects (bucket : String) (keys : List String) (quiet : Bool) : S3Call
  | uploadFile (localPath bucket key : String) (acl : Option String) : S3Call
  | downloadFile (bucket key localPath : String) : S3Call
  | copy (srcBucket srcKey destBucket destKey : String) : S3Call
deriving DecidableEq

/-- The two backend calls the move/rename loop issues for one file: the
rename branch first recomputes the new key as
`destination ++ basename`, rewritten by `re.sub(pattern, sub, ·)`; the copy
destination is then `destination ++ "/" ++ new_file` in both branches. -/
def postCopyFileCalls (spec : TransferSpec) (file : String) : List S3Call :=
  let new_file :=
    if spec.postCopyAction.action == "rename" then
      reSub spec.postCopyAction.pattern spec.postCopyAction.sub
        (spec.postCopyAction.destination ++ pyBasename file)
    else file
  [S3Call.copyObject spec.bucket spec.bucket file
      (spec.postCopyAction.destination ++ "/" ++ new_file),
   S3Call.deleteObjects spec.bucket [file] true]

/-- `S3Transfer.handle_post_copy_action`: the ordered trace of backend calls
and the returned status (the source returns the literal `0` on every path and
never reads any backend call's result, so no backend outcome is an input). -/
def handle_post_copy_action (spec : TransferSpec) (files : List String) :
    List S3Call × Nat :=
  let deleteCalls :=
    if spec.postCopyAction.action == "delete" then
      [S3Call.deleteObjects spec.bucket files true]
    else []
  let moveCalls :=
    if spec.postCopyAction.action == "move" || spec.postCopyAction.action == "rename" then
      files.flatMap (postCopyFileCalls spec)
    else []
  (deleteCalls ++ moveCalls, 0)

/-- `MAX_OBJECTS_PER_QUERY` from the source module. -/
def MAX_OBJECTS_PER_QUERY : Nat := 100

/-- Does the leaf name survive the filter?  The source skips an object when
`file_pattern and not re.match(file_pattern, filename)`; with no pattern
every object survives. -/
def passesFilter (file_pattern : Option PyPattern) (filename : String) : Bool :=
  match file_pattern with
  | some p => reMatch p filename
  | none => true

/-- Python dictionary assignment `m[key] = v` on an association list that
records insertion order: an existing binding is overwritten in place,
otherwise the new binding is appended. -/
def dictInsert (m : List (String × FileAttr)) (key : String) (v : FileAttr) :
    List (String × FileAttr) :=
  if m.any (fun e => e.1 == key) then
    m.map (fun e => if e.1 == key then (key, v) else e)
  else m ++ [(key, v)]

/-- The body of the Lister's `for object in response["Contents"]` loop over
one page: each key whose leaf name passes the filter is looked up with
`head_object` and stored in the dictionary under the full key. -/
def processContents (file_pattern : Option PyPattern) (head_object : String → FileAttr)
    (contents : List String) (acc : List (String × FileAttr)) :
    List (String × FileAttr) :=
  contents.foldl
    (fun m key =>
      if passesFilter file_pattern (pyBasename key) then
        dictInsert m key (head_object key)
      else m)
    acc

/-- The Lister's `while True` pagination loop.  `pages` is the sequence of
`list_objects_v2` responses the backend returns to successive calls; the
first trace component is the ordered list of keyword-argument records sent
(one per call).  A page with zero `KeyCount` makes the whole call return the
`None` sentinel (`Option.none`); a page without `NextContinuationToken`
stops the loop and returns the accumulated dictionary.  The `[]` case is
unreachable for well-formed response sequences (the client always answers a
request); it is modelled as stopping with the dictionary so far. -/
def list_files_loop (head_object : String → FileAttr) (file_pattern : Option PyPattern) :
    List ListResponse → ListKwargs → List (String × FileAttr) →
    List ListKwargs × Option (List (String × FileAttr))
  | [], _, acc => ([], some acc)
  | r :: rest, kwargs, acc =>
      if r.keyCount ≠ 0 then
        let acc' := processContents file_pattern head_object r.contents acc
        match r.nextContinuationToken with
        | some tok =>
            let next := list_files_loop head_object file_pattern rest
              { kwargs with continuationToken := some tok } acc'
            (kwargs :: next.1, next.2)
        | none => ([kwargs], some acc')
      else ([kwargs], none)

/-- `S3Transfer.list_files`: builds the initial keyword arguments
(`Bucket`, `MaxKeys := MAX_OBJECTS_PER_QUERY`, optional `Prefix`) and runs
the pagination loop with an empty dictionary.  Returns the trace of
`list_objects_v2` calls and either the `None` sentinel or the dictionary of
`key ↦ (size, modified_time)`. -/
def list_files (bucket : String) (pages : List ListResponse)
    (head_object : String → FileAttr) (directory : Option String)
    (file_pattern : Option PyPattern) :
    List ListKwargs × Option (List (String × FileAttr)) :=
  list_files_loop head_object file_pattern pages
    { bucket := bucket, maxKeys := MAX_OBJECTS_PER_QUERY,
      pfx := directory, continuationToken := none } []

/-- Python exceptions the handler raises. -/
inductive PyExc where
  | notImplementedError : PyExc
deriving DecidableEq

/-- `S3Transfer.move_files_to_final_location`: raises `NotImplementedError`
unconditionally, issuing no backend call. -/
def move_files_to_final_location (files : List String) :
    List S3Call × Except PyExc Unit :=
  ([], Except.error PyExc.notImplementedError)

/-- `S3Transfer.pull_files` (S3 as the destination pulling directly from a
remote spec): raises `NotImplementedError` unconditionally, issuing no
backend call.  `remote_spec` is accepted and ignored exactly as in the
source. -/
def pull_files (files : List String) (remote_spec : TransferSpec) :
    List S3Call × Except PyExc Unit :=
  ([], Except.error PyExc.notImplementedError)

/-- The upload call `push_files_from_worker` issues for one staged file:
key `directory ++ "/" ++ basename`, with the ACL directive exactly when the
`bucket_owner_full_control` flag is set. -/
def pushUploadCall (spec : TransferSpec) (file : String) : S3Call :=
  S3Call.uploadFile file spec.bucket (spec.directory ++ "/" ++ pyBasename file)
    (if spec.bucket_owner_full_control then some "bucket-owner-full-control" else none)

/-- `S3Transfer.push_files_from_worker`: `files` is the result of
`glob.glob(local_staging_directory ++ "/*")` and `uploadOk` tells whether
the backend accepts a given file (an exception in Python).  The fold mirrors
the source loop: every file is attempted in order, a failure only logs and
sets `result = 1`. -/
def push_files_from_worker (spec : TransferSpec) (files : List String)
    (uploadOk : String → Bool) : List S3Call × Nat :=
  files.foldl
    (fun st file =>
      (st.1 ++ [pushUploadCall spec file], if uploadOk file then st.2 else 1))
    ([], 0)

/-- `S3Transfer.pull_files_to_worker`: downloads each key to
`local_staging_directory ++ "/" ++ basename`, with the same per-file failure
accumulation as the upload direction. -/
def pull_files_to_worker (spec : TransferSpec) (files : List String)
    (local_staging_directory : String) (downloadOk : String → Bool) :
    List S3Call × Nat :=
  files.foldl
    (fun st file =>
      (st.1 ++ [S3Call.downloadFile spec.bucket file
          (local_staging_directory ++ "/" ++ pyBasename file)],
       if downloadOk file then st.2 else 1))
    ([], 0)

/-- The destination handler argument of `transfer_files`: either another
`S3Transfer` instance (carrying its own spec) or a handler of any other
type (including the default `None`), which `isinstance` rejects. -/
inductive DestHandler where
  | s3Transfer (spec : TransferSpec) : DestHandler
  | otherHandler : DestHandler

/-- `S3Transfer.transfer_files`: when the destination handler is another
`S3Transfer`, issues one managed `copy` per file (source bucket/key to the
destination bucket, base name under the destination directory) with per-file
failure accumulation and returns `some` 0/1 status; for any other handler
type the `isinstance` guard fails and the function falls through, issuing
nothing and returning Python `None` (`Option.none`). -/
def transfer_files (spec : TransferSpec) (files : List String)
    (copyOk : String → Bool) (dest : DestHandler) :
    List S3Call × Option Nat :=
  match dest with
  | DestHandler.s3Transfer dspec =>
      let st := files.foldl
        (fun st file =>
          (st.1 ++ [S3Call.copy spec.bucket file dspec.bucket
              (dspec.directory ++ "/" ++ pyBasename file)],
           if copyOk file then st.2 else 1))
        ([], 0)
      (st.1, some st.2)
  | DestHandler.otherHandler => ([], none)

/-- Is the call a `copy_object` disposition copy? -/
def isCopyObjectCall : S3Call → Bool
  | S3Call.copyObject _ _ _ _ => true
  | _ => false

/-- Is the call a `delete_objects` bulk delete? -/
def isDeleteObjectsCall : S3Call → Bool
  | S3Call.deleteObjects _ _ _ => true
  | _ => false

/-- Characterisation of the per-file accumulation fold shared by
`push_files_from_worker`, `pull_files_to_worker` and `transfer_files`:
every file is attempted in order, and the status is 0 exactly when every
file succeeded. -/
theorem foldl_calls_status (mkCall : String → S3Call) (ok : String → Bool) :
    ∀ (files : List String) (cs : List S3Call) (r : Nat),
      files.foldl
        (fun st file => (st.1 ++ [mkCall file], if ok file then st.2 else 1))
        (cs, r)
      = (cs ++ files.map mkCall, if files.all ok then r else 1) := by
  intro files
  induction files with
  | nil => intro cs r; simp
  | cons f fs ih =>
      intro cs r
      simp only [List.foldl_cons, List.map_cons, List.all_cons]
      rw [ih]
      by_cases h : ok f = true
      · simp [h]
      · simp only [Bool.not_eq_true] at h
        simp only [h, Bool.false_and, if_neg, ite_false, Bool.false_eq_true]
        cases hall : fs.all ok <;> simp [List.append_assoc]

/-- The transfer specification of the C1 scenario: rename disposition with
destination prefix `archive/`, pattern `^tmp_` and replacement `done_`. -/
def c1Spec : TransferSpec :=
  { bucket := "bkt", directory := "dir",
    postCopyAction :=
      { action := "rename", destination := "archive/",
        pattern := { anchoredStart := true, re := Regex.lit "tmp_" },
        sub := "done_" },
    bucket_owner_full_control := true }

/-- C1: counterexample.  For the rename disposition with pattern `^tmp_`,
replacement `done_`, destination prefix `archive/` and key
`incoming/tmp_report.csv`, the handler does NOT issue a copy to
`archive/done_report.csv`: the actual trace copies to
`archive//archive/tmp_report.csv`, because the destination prefix is
prepended before the substitution runs (so the anchored pattern cannot
match) and the destination is then prepended a second time with a `/`. -/
theorem C1_counterexample :
    (handle_post_copy_action c1Spec ["incoming/tmp_report.csv"]).1
      = [S3Call.copyObject "bkt" "bkt" "incoming/tmp_report.csv"
           "archive//archive/tmp_report.csv",
         S3Call.deleteObjects "bkt" ["incoming/tmp_report.csv"] true]
    ∧ S3Call.copyObject "bkt" "bkt" "incoming/tmp_report.csv"
        "archive/done_report.csv"
        ∉ (handle_post_copy_action c1Spec ["incoming/tmp_report.csv"]).1 := by
  decide

/-- C1 (amended): for the rename disposition with pattern `^tmp_`,
replacement `done_`, destination prefix `archive/` and key
`incoming/tmp_report.csv`, the handler issues a copy whose destination key
is `archive//archive/tmp_report.csv` (the substitution leaves the
prefix-extended name unchanged) and then deletes the original key. -/
theorem C1_rename_disposition :
    (handle_post_copy_action c1Spec ["incoming/tmp_report.csv"]).1
      = [S3Call.copyObject "bkt" "bkt" "incoming/tmp_report.csv"
           "archive//archive/tmp_report.csv",
         S3Call.deleteObjects "bkt" ["incoming/tmp_report.csv"] true] := by
  decide

/-- A move-disposition specification with destination `archive` (its pattern
and replacement fields are irrelevant to the move branch). -/
def c2Spec : TransferSpec :=
  { bucket := "bkt", directory := "dir",
    postCopyAction :=
      { action := "move", destination := "archive",
        pattern := { anchoredStart := false, re := Regex.epsilon }, sub := "" },
    bucket_owner_full_control := true }

/-- C2: counterexample.  Moving `incoming/a.csv` to destination `archive`
copies to `archive/incoming/a.csv` — destination prefix, `/`, and the FULL
original key — and no copy to `archive/a.csv` (destination plus base name,
as the claim states) is ever issued. -/
theorem C2_counterexample :
    (handle_post_copy_action c2Spec ["incoming/a.csv"]).1
      = [S3Call.copyObject "bkt" "bkt" "incoming/a.csv" "archive/incoming/a.csv",
         S3Call.deleteObjects "bkt" ["incoming/a.csv"] true]
    ∧ S3Call.copyObject "bkt" "bkt" "incoming/a.csv"
        ("archive" ++ "/" ++ pyBasename "incoming/a.csv")
        ∉ (handle_post_copy_action c2Spec ["incoming/a.csv"]).1 := by
  decide

/-- C2 (amended): for every key in the input set, the move disposition
copies the object to destination prefix, a `/` separator, and the FULL
original key (not its base name), within the same bucket, and then deletes
the original key. -/
theorem C2_move_disposition (spec : TransferSpec) (files : List String)
    (h : spec.postCopyAction.action = "move") :
    (handle_post_copy_action spec files).1
      = files.flatMap (fun file =>
          [S3Call.copyObject spec.bucket spec.bucket file
             (spec.postCopyAction.destination ++ "/" ++ file),
           S3Call.deleteObjects spec.bucket [file] true]) := by
  have hfn : postCopyFileCalls spec = fun file =>
      [S3Call.copyObject spec.bucket spec.bucket file
         (spec.postCopyAction.destination ++ "/" ++ file),
       S3Call.deleteObjects spec.bucket [file] true] := by
    funext file
    simp [postCopyFileCalls, h]
  simp [handle_post_copy_action, h, hfn]

/-- C2 witness: the amended statement at the concrete move of
`incoming/a.csv` to destination `archive`. -/
theorem C2_witness :
    (handle_post_copy_action c2Spec ["incoming/a.csv"]).1
      = ["incoming/a.csv"].flatMap (fun file =>
          [S3Call.copyObject c2Spec.bucket c2Spec.bucket file
             (c2Spec.postCopyAction.destination ++ "/" ++ file),
           S3Call.deleteObjects c2Spec.bucket [file] true]) :=
  C2_move_disposition c2Spec ["incoming/a.csv"] rfl

/-- The staging directory contents of the C6 scenario: five staged files. -/
def fiveStagedFiles : List String :=
  ["stage/f1", "stage/f2", "stage/f3", "stage/f4", "stage/f5"]

/-- Backend behaviour of the C6 scenario: only the upload of file #3 fails. -/
def failOnlyThird (file : String) : Bool :=
  !(file == "stage/f3")

/-- A plain upload specification used by the concrete batch scenarios. -/
def pushSpec : TransferSpec :=
  { bucket := "bkt", directory := "dest",
    postCopyAction :=
      { action := "", destination := "",
        pattern := { anchoredStart := false, re := Regex.epsilon }, sub := "" },
    bucket_owner_full_control := true }

/-- C6: for every upload batch, every file is attempted in order (a single
failure does not abort the batch) and the returned status is 0 exactly when
all uploads succeeded, 1 otherwise; in particular, for the five-file batch
where only file #3 fails, all five files are attempted and the status is 1. -/
theorem C6_push_batch_failure_isolation (spec : TransferSpec)
    (files : List String) (uploadOk : String → Bool) :
    ((push_files_from_worker spec files uploadOk).1
        = files.map (pushUploadCall spec)
      ∧ (push_files_from_worker spec files uploadOk).2
        = (if files.all uploadOk then 0 else 1))
    ∧ (push_files_from_worker pushSpec fiveStagedFiles failOnlyThird).1
        = fiveStagedFiles.map (pushUploadCall pushSpec)
    ∧ (push_files_from_worker pushSpec fiveStagedFiles failOnlyThird).2 = 1 := by
  refine ⟨⟨?_, ?_⟩, by decide, by decide⟩
  · rw [push_files_from_worker, foldl_calls_status (pushUploadCall spec) uploadOk]
    simp
  · rw [push_files_from_worker, foldl_calls_status (pushUploadCall spec) uploadOk]

/-- C7: `handle_post_copy_action` returns status 0 for every input file set
and every configured action; no backend call result is an input of the
embedding because the source never reads one. -/
theorem C7_post_copy_status_always_zero (spec : TransferSpec)
    (files : List String) :
    (handle_post_copy_action spec files).2 = 0 := rfl

/-- C8: for a move disposition of keys `[a, b]` to any destination, the exact
backend trace is copy of `a`, delete of `a`, copy of `b`, delete of `b`: it
contains exactly two copies and exactly two bulk deletes, and each copy
precedes the delete of the same original key. -/
theorem C8_move_call_order (spec : TransferSpec) (a b : String)
    (h : spec.postCopyAction.action = "move") :
    (handle_post_copy_action spec [a, b]).1
      = [S3Call.copyObject spec.bucket spec.bucket a
           (spec.postCopyAction.destination ++ "/" ++ a),
         S3Call.deleteObjects spec.bucket [a] true,
         S3Call.copyObject spec.bucket spec.bucket b
           (spec.postCopyAction.destination ++ "/" ++ b),
         S3Call.deleteObjects spec.bucket [b] true]
    ∧ ((handle_post_copy_action spec [a, b]).1.countP isCopyObjectCall) = 2
    ∧ ((handle_post_copy_action spec [a, b]).1.countP isDeleteObjectsCall) = 2 := by
  have htrace : (handle_post_copy_action spec [a, b]).1
      = [S3Call.copyObject spec.bucket spec.bucket a
           (spec.postCopyAction.destination ++ "/" ++ a),
         S3Call.deleteObjects spec.bucket [a] true,
         S3Call.copyObject spec.bucket spec.bucket b
           (spec.postCopyAction.destination ++ "/" ++ b),
         S3Call.deleteObjects spec.bucket [b] true] := by
    have hf : ∀ file, postCopyFileCalls spec file
        = [S3Call.copyObject spec.bucket spec.bucket file
             (spec.postCopyAction.destination ++ "/" ++ file),
           S3Call.deleteObjects spec.bucket [file] true] := by
      intro file
      simp [postCopyFileCalls, h]
    simp [handle_post_copy_action, h, hf]
  refine ⟨htrace, ?_, ?_⟩ <;>
    rw [htrace] <;>
    simp [List.countP_cons, isCopyObjectCall, isDeleteObjectsCall]

/-- C8 witness: the statement at the concrete move of keys `a`, `b` to
destination `archive`. -/
theorem C8_witness :
    (handle_post_copy_action c2Spec ["a", "b"]).1
      = [S3Call.copyObject c2Spec.bucket c2Spec.bucket "a"
           (c2Spec.postCopyAction.destination ++ "/" ++ "a"),
         S3Call.deleteObjects c2Spec.bucket ["a"] true,
         S3Call.copyObject c2Spec.bucket c2Spec.bucket "b"
           (c2Spec.postCopyAction.destination ++ "/" ++ "b"),
         S3Call.deleteObjects c2Spec.bucket ["b"] true]
    ∧ ((handle_post_copy_action c2Spec ["a", "b"]).1.countP isCopyObjectCall) = 2
    ∧ ((handle_post_copy_action c2Spec ["a", "b"]).1.countP isDeleteObjectsCall) = 2 :=
  C8_move_call_order c2Spec "a" "b" rfl

/-- C9: when the destination handler is another `S3Transfer`, the handler
issues one native per-file copy (source bucket/key to destination bucket,
base name under the destination directory) — and nothing else, in
particular no local-disk staging call — returning `some` of the 0/1
aggregate status; when the destination handler is of any other type, no
call is issued, no error is raised, and the function returns Python `None`. -/
theorem C9_transfer_files_dispatch (spec : TransferSpec) (files : List String)
    (copyOk : String → Bool) (dspec : TransferSpec) :
    transfer_files spec files copyOk (DestHandler.s3Transfer dspec)
      = (files.map (fun file => S3Call.copy spec.bucket file dspec.bucket
            (dspec.directory ++ "/" ++ pyBasename file)),
         some (if files.all copyOk then 0 else 1))
    ∧ transfer_files spec files copyOk DestHandler.otherHandler = ([], none) := by
  constructor
  · rw [transfer_files]
    rw [foldl_calls_status
      (fun file => S3Call.copy spec.bucket file dspec.bucket
        (dspec.directory ++ "/" ++ pyBasename file)) copyOk]
    simp
  · rfl

/-- C10: `pull_files` (S3 as destination pulling directly from a remote
spec) raises `NotImplementedError` for every argument pair without issuing
any backend call, and `move_files_to_final_location` does the same. -/
theorem C10_unimplemented_directions (files : List String)
    (remote_spec : TransferSpec) :
    pull_files files remote_spec = ([], Except.error PyExc.notImplementedError)
    ∧ ∀ fs : List String,
        move_files_to_final_location fs
          = ([], Except.error PyExc.notImplementedError) :=
  ⟨rfl, fun _ => rfl⟩

/-- The dictionary contribution of one listed key: `some` of the stored
entry when its leaf name passes the filter, `none` when it is skipped. -/
def entryOf (file_pattern : Option PyPattern) (head_object : String → FileAttr)
    (key : String) : Option (String × FileAttr) :=
  if passesFilter file_pattern (pyBasename key) then some (key, head_object key)
  else none

/-- A well-formed sequence of `list_objects_v2` responses for one listing
that finds objects: at least one page, every page reports a nonzero
`KeyCount`, every page but the last carries a continuation token and the
last does not.  This is the S3 contract for a prefix under which objects
exist and none are deleted mid-listing. -/
def chainOK : List ListResponse → Bool
  | [] => false
  | [r] => decide (r.keyCount ≠ 0) && r.nextContinuationToken.isNone
  | r :: rest => decide (r.keyCount ≠ 0) && r.nextContinuationToken.isSome && chainOK rest

/-- Inserting a key not yet bound in the dictionary appends the binding. -/
theorem dictInsert_fresh (m : List (String × FileAttr)) (key : String)
    (v : FileAttr) (h : key ∉ m.map Prod.fst) :
    dictInsert m key v = m ++ [(key, v)] := by
  rw [dictInsert, if_neg]
  intro hc
  rcases List.any_eq_true.mp hc with ⟨e, he, heq⟩
  exact h (List.mem_map.mpr ⟨e, he, by simpa using heq⟩)

/-- The keys that survive the filter form a sublist of the page contents. -/
theorem keys_filterMap_entryOf_sublist (fp : Option PyPattern)
    (ho : String → FileAttr) (contents : List String) :
    ((contents.filterMap (entryOf fp ho)).map Prod.fst).Sublist contents := by
  induction contents with
  | nil => simp
  | cons key ks ih =>
      by_cases h : passesFilter fp (pyBasename key) = true
      · rw [List.filterMap_cons_some (show entryOf fp ho key = some (key, ho key) by
          simp [entryOf, h])]
        rw [List.map_cons]
        exact List.Sublist.cons₂ key ih
      · rw [List.filterMap_cons_none (show entryOf fp ho key = none by
          simp [entryOf, h])]
        exact List.Sublist.cons key ih

/-- With no duplicate among the accumulated keys and the page contents, the
per-page dictionary fold appends exactly the filtered entries in order. -/
theorem processContents_eq (fp : Option PyPattern) (ho : String → FileAttr) :
    ∀ (contents : List String) (acc : List (String × FileAttr)),
      (acc.map Prod.fst ++ contents).Nodup →
      processContents fp ho contents acc
        = acc ++ contents.filterMap (entryOf fp ho) := by
  intro contents
  induction contents with
  | nil => intro acc _; simp [processContents]
  | cons key ks ih =>
      intro acc hn
      have hstep : processContents fp ho (key :: ks) acc
          = processContents fp ho ks
              (if passesFilter fp (pyBasename key) = true then
                dictInsert acc key (ho key) else acc) := by
        rw [processContents, processContents, List.foldl_cons]
      by_cases h : passesFilter fp (pyBasename key) = true
      · have hfresh : key ∉ acc.map Prod.fst := by
          rcases List.nodup_append.mp hn with ⟨_, _, hdisj⟩
          intro hmem
          exact hdisj hmem (List.mem_cons_self key ks)
        have hacc : (((acc ++ [(key, ho key)]).map Prod.fst) ++ ks).Nodup := by
          rw [List.map_append, List.append_assoc]
          simpa using hn
        rw [hstep, if_pos h, dictInsert_fresh acc key (ho key) hfresh, ih _ hacc]
        rw [List.filterMap_cons_some (show entryOf fp ho key = some (key, ho key) by
          simp [entryOf, h])]
        simp [List.append_assoc]
      · have hacc : ((acc.map Prod.fst) ++ ks).Nodup := by
          refine List.Nodup.sublist ?_ hn
          exact List.Sublist.append_left (List.sublist_cons_self key ks) _
        rw [hstep, if_neg h, ih _ hacc]
        rw [List.filterMap_cons_none (show entryOf fp ho key = none by
          simp [entryOf, h])]

/-- When every page key is filtered out, the dictionary fold is a no-op. -/
theorem processContents_of_all_fail (fp : Option PyPattern)
    (ho : String → FileAttr) :
    ∀ (contents : List String) (acc : List (String × FileAttr)),
      (∀ key ∈ contents, passesFilter fp (pyBasename key) = false) →
      processContents fp ho contents acc = acc := by
  intro contents
  induction contents with
  | nil => intro acc _; simp [processContents]
  | cons key ks ih =>
      intro acc hfail
      have hstep : processContents fp ho (key :: ks) acc
          = processContents fp ho ks
              (if passesFilter fp (pyBasename key) = true then
                dictInsert acc key (ho key) else acc) := by
        rw [processContents, processContents, List.foldl_cons]
      rw [hstep, if_neg (by simp [hfail key (List.mem_cons_self key ks)]),
        ih _ (fun k hk => hfail k (List.mem_cons_of_mem key hk))]

/-- Over a well-formed response chain without duplicate keys, the pagination
loop returns the accumulated dictionary extended, page by page in order, by
every entry that passes the filter. -/
theorem list_files_loop_result (ho : String → FileAttr) (fp : Option PyPattern) :
    ∀ (pages : List ListResponse) (kwargs : ListKwargs)
      (acc : List (String × FileAttr)),
      chainOK pages = true →
      ((acc.map Prod.fst) ++ pages.flatMap (fun r => r.contents)).Nodup →
      (list_files_loop ho fp pages kwargs acc).2
        = some (acc ++ (pages.flatMap fun r => r.contents).filterMap (entryOf fp ho)) := by
  intro pages
  induction pages with
  | nil => intro kwargs acc hc; simp [chainOK] at hc
  | cons r rest ih =>
      intro kwargs acc hc hn
      cases rest with
      | nil =>
          simp only [chainOK, Bool.and_eq_true, decide_eq_true_eq,
            Option.isNone_iff_eq_none] at hc
          obtain ⟨hk, ht⟩ := hc
          rw [list_files_loop, if_pos hk, ht]
          simp only [List.flatMap_cons, List.flatMap_nil, List.append_nil] at hn ⊢
          rw [processContents_eq fp ho r.contents acc hn]
      | cons r2 rs =>
          simp only [chainOK, Bool.and_eq_true, decide_eq_true_eq] at hc
          obtain ⟨⟨hk, htok⟩, hrest⟩ := hc
          obtain ⟨tok, htok'⟩ := Option.isSome_iff_exists.mp htok
          rw [list_files_loop, if_pos hk, htok']
          have hsub1 : ((acc.map Prod.fst) ++ r.contents).Nodup := by
            refine List.Nodup.sublist ?_ hn
            rw [List.flatMap_cons, ← List.append_assoc]
            exact List.sublist_append_left _ _
          have hacc' : processContents fp ho r.contents acc
              = acc ++ r.contents.filterMap (entryOf fp ho) :=
            processContents_eq fp ho r.contents acc hsub1
          have hn' : (((acc ++ r.contents.filterMap (entryOf fp ho)).map Prod.fst)
              ++ (r2 :: rs).flatMap (fun p => p.contents)).Nodup := by
            refine List.Nodup.sublist ?_ hn
            rw [List.map_append, List.flatMap_cons, List.append_assoc]
            refine List.Sublist.append_left ?_ _
            exact List.Sublist.append
              (keys_filterMap_entryOf_sublist fp ho r.contents) (List.Sublist.refl _)
          have := ih { kwargs with continuationToken := some tok }
            (acc ++ r.contents.filterMap (entryOf fp ho)) hrest hn'
          simp only [hacc', this, List.flatMap_cons, List.filterMap_append,
            List.append_assoc]

/-- Over a well-formed response chain the loop performs exactly one
`list_objects_v2` call per page. -/
theorem list_files_loop_trace_length (ho : String → FileAttr)
    (fp : Option PyPattern) :
    ∀ (pages : List ListResponse) (kwargs : ListKwargs)
      (acc : List (String × FileAttr)),
      chainOK pages = true →
      (list_files_loop ho fp pages kwargs acc).1.length = pages.length := by
  intro pages
  induction pages with
  | nil => intro kwargs acc hc; simp [chainOK] at hc
  | cons r rest ih =>
      intro kwargs acc hc
      cases rest with
      | nil =>
          simp only [chainOK, Bool.and_eq_true, decide_eq_true_eq,
            Option.isNone_iff_eq_none] at hc
          obtain ⟨hk, ht⟩ := hc
          rw [list_files_loop, if_pos hk, ht]
          simp
      | cons r2 rs =>
          simp only [chainOK, Bool.and_eq_true, decide_eq_true_eq] at hc
          obtain ⟨⟨hk, htok⟩, hrest⟩ := hc
          obtain ⟨tok, htok'⟩ := Option.isSome_iff_exists.mp htok
          rw [list_files_loop, if_pos hk, htok']
          simp only [List.length_cons]
          rw [ih _ _ hrest]
          simp

/-- Every call record the loop emits carries the `MaxKeys` of the initial
keyword arguments: the loop only ever updates the continuation token. -/
theorem list_files_loop_maxKeys (ho : String → FileAttr) (fp : Option PyPattern) :
    ∀ (pages : List ListResponse) (kwargs : ListKwargs)
      (acc : List (String × FileAttr)) (c : ListKwargs),
      c ∈ (list_files_loop ho fp pages kwargs acc).1 →
      c.maxKeys = kwargs.maxKeys := by
  intro pages
  induction pages with
  | nil => intro kwargs acc c hc; simp [list_files_loop] at hc
  | cons r rest ih =>
      intro kwargs acc c hc
      rw [list_files_loop] at hc
      by_cases hk : r.keyCount ≠ 0
      · rw [if_pos hk] at hc
        cases htok : r.nextContinuationToken with
        | none => rw [htok] at hc; simp at hc; rw [hc]
        | some tok =>
            rw [htok] at hc
            simp only [List.mem_cons] at hc
            rcases hc with hc | hc
            · rw [hc]
            · exact ih { kwargs with continuationToken := some tok } _ c hc
      · rw [if_neg hk] at hc
        simp at hc
        rw [hc]

/-- The loop always issues at least one call on a nonempty page sequence. -/
theorem list_files_loop_trace_ne_nil (ho : String → FileAttr)
    (fp : Option PyPattern) (r : ListResponse) (rest : List ListResponse)
    (kwargs : ListKwargs) (acc : List (String × FileAttr)) :
    (list_files_loop ho fp (r :: rest) kwargs acc).1 ≠ [] := by
  rw [list_files_loop]
  by_cases hk : r.keyCount ≠ 0
  · rw [if_pos hk]
    cases htok : r.nextContinuationToken <;> simp
  · rw [if_neg hk]
    simp

/-- With no filter pattern, every listed key contributes its entry. -/
theorem filterMap_entryOf_none (ho : String → FileAttr) (l : List String) :
    l.filterMap (entryOf none ho) = l.map (fun key => (key, ho key)) := by
  induction l with
  | nil => simp
  | cons k ks ih =>
      rw [List.filterMap_cons_some (show entryOf none ho k = some (k, ho k) by
        simp [entryOf, passesFilter])]
      rw [ih, List.map_cons]

/-- A single response page whose one key has leaf name `ab`. -/
def c3Page : ListResponse :=
  { keyCount := 1, contents := ["ab"], nextContinuationToken := none }

/-- Constant metadata for the concrete listing scenarios. -/
def c3Attr : String → FileAttr := fun _ => { size := 5, modified_time := 7 }

/-- The filter pattern `a` of the concrete listing scenario. -/
def c3Pat : PyPattern := { anchoredStart := false, re := Regex.lit "a" }

/-- C3: counterexample.  Listing a single object with leaf name `ab` under
filter pattern `a` INCLUDES the object (the source tests patterns with
`re.match`, which only anchors at the start), although the pattern does not
full-match the leaf name — so inclusion is not equivalent to full-match
semantics as the claim states. -/
theorem C3_counterexample :
    (list_files "bkt" [c3Page] c3Attr none (some c3Pat)).2
      = some [("ab", { size := 5, modified_time := 7 })]
    ∧ fullMatch c3Pat (pyBasename "ab") = false := by
  decide

/-- C3 (amended): over a well-formed response chain with no duplicate key,
an object is included in the result exactly when the filter pattern matches
AT THE START of its leaf name (Python `re.match` semantics, not full-match);
each included entry is keyed by the full object key and carries that
object's `head_object` size and modification time, and the result has
exactly as many entries as there are keys passing the filter. -/
theorem C3_filter_semantics (p : PyPattern) (pages : List ListResponse)
    (head_object : String → FileAttr) (bucket : String)
    (directory : Option String) (hchain : chainOK pages = true)
    (hnodup : (pages.flatMap fun r => r.contents).Nodup) :
    ∃ R, (list_files bucket pages head_object directory (some p)).2 = some R
      ∧ (∀ key sz t, ((key, FileAttr.mk sz t) ∈ R
          ↔ key ∈ pages.flatMap (fun r => r.contents)
            ∧ reMatch p (pyBasename key) = true
            ∧ sz = (head_object key).size
            ∧ t = (head_object key).modified_time))
      ∧ R.length = (pages.flatMap fun r => r.contents).countP
          (fun key => reMatch p (pyBasename key)) := by
  have hres : (list_files bucket pages head_object directory (some p)).2
      = some ((pages.flatMap fun r => r.contents).filterMap
          (entryOf (some p) head_object)) := by
    rw [list_files, list_files_loop_result head_object (some p) pages _ []
      hchain (by simpa using hnodup)]
    simp
  refine ⟨_, hres, ?_, ?_⟩
  · intro key sz t
    constructor
    · intro hmem
      rcases List.mem_filterMap.mp hmem with ⟨a, ha, hea⟩
      by_cases hp : passesFilter (some p) (pyBasename a) = true
      · rw [entryOf, if_pos hp] at hea
        injection hea with h1
        rw [Prod.mk.injEq] at h1
        obtain ⟨h1a, h1b⟩ := h1
        subst h1a
        refine ⟨ha, by simpa [passesFilter] using hp, ?_, ?_⟩
        · rw [h1b]
        · rw [h1b]
      · rw [entryOf, if_neg hp] at hea
        cases hea
    · rintro ⟨hk, hm, hsz, ht⟩
      refine List.mem_filterMap.mpr ⟨key, hk, ?_⟩
      rw [entryOf, if_pos (by simpa [passesFilter] using hm)]
      subst hsz
      subst ht
      rfl
  · rw [List.length_filterMap_eq_countP]
    refine List.countP_congr ?_
    intro a _
    by_cases hp : reMatch p (pyBasename a) = true <;>
      simp [entryOf, passesFilter, hp]

/-- C3 witness: the amended statement at the single-page listing of the key
`ab` with filter pattern `a`. -/
theorem C3_witness :
    ∃ R, (list_files "bkt" [c3Page] c3Attr none (some c3Pat)).2 = some R
      ∧ (∀ key sz t, ((key, FileAttr.mk sz t) ∈ R
          ↔ key ∈ [c3Page].flatMap (fun r => r.contents)
            ∧ reMatch c3Pat (pyBasename key) = true
            ∧ sz = (c3Attr key).size
            ∧ t = (c3Attr key).modified_time))
      ∧ R.length = ([c3Page].flatMap fun r => r.contents).countP
          (fun key => reMatch c3Pat (pyBasename key)) :=
  C3_filter_semantics c3Pat [c3Page] c3Attr "bkt" none (by decide) (by decide)

/-- A first page reporting zero objects under the prefix. -/
def c4EmptyPage : ListResponse :=
  { keyCount := 0, contents := [], nextContinuationToken := none }

/-- A single page whose one key `zz` fails the filter pattern `a`. -/
def c4FullPage : ListResponse :=
  { keyCount := 1, contents := ["zz"], nextContinuationToken := none }

/-- C4: a listing whose first page reports zero objects returns the `None`
sentinel, and a listing that found objects all of which the filter rejects
returns the empty dictionary, which is a different value from the
sentinel. -/
theorem C4_nothing_found_sentinel :
    (∀ (bucket : String) (ho : String → FileAttr) (directory : Option String)
        (fp : Option PyPattern) (r : ListResponse) (rest : List ListResponse),
        r.keyCount = 0 →
        (list_files bucket (r :: rest) ho directory fp).2 = none)
    ∧ (∀ (bucket : String) (ho : String → FileAttr) (directory : Option String)
        (p : PyPattern) (r : ListResponse),
        r.keyCount ≠ 0 → r.nextContinuationToken = none →
        (∀ key ∈ r.contents, reMatch p (pyBasename key) = false) →
        (list_files bucket [r] ho directory (some p)).2
            = some ([] : List (String × FileAttr))
          ∧ some ([] : List (String × FileAttr))
            ≠ (none : Option (List (String × FileAttr)))) := by
  constructor
  · intro bucket ho directory fp r rest h
    rw [list_files, list_files_loop, if_neg (by simp [h])]
  · intro bucket ho directory p r hk ht hfail
    refine ⟨?_, by simp⟩
    rw [list_files, list_files_loop, if_pos hk, ht]
    rw [processContents_of_all_fail (some p) ho r.contents []
      (by simpa [passesFilter] using hfail)]

/-- C4 witness: the sentinel at a zero-count first page, and the empty
dictionary at a one-object page whose key fails the filter. -/
theorem C4_witness :
    (list_files "bkt" [c4EmptyPage] c3Attr none none).2 = none
    ∧ ((list_files "bkt" [c4FullPage] c3Attr none (some c3Pat)).2
          = some ([] : List (String × FileAttr))
        ∧ some ([] : List (String × FileAttr))
          ≠ (none : Option (List (String × FileAttr)))) :=
  ⟨C4_nothing_found_sentinel.1 "bkt" c3Attr none none c4EmptyPage [] rfl,
   C4_nothing_found_sentinel.2 "bkt" c3Attr none c3Pat c4FullPage
     (by decide) rfl (by decide)⟩

/-- The i-th distinct object key of the 250-object scenario. -/
def key250 (i : Nat) : String := String.mk (List.replicate (i + 1) 'a')

/-- Distinct indices give distinct keys (the key length determines i). -/
theorem key250_injective : Function.Injective key250 := by
  intro a b h
  have h2 : (key250 a).data.length = (key250 b).data.length := by rw [h]
  simpa [key250, List.length_replicate] using h2

/-- First page of the 250-object backend: 100 keys and a token. -/
def page250a : ListResponse :=
  { keyCount := 100, contents := (List.range 100).map key250,
    nextContinuationToken := some "token1" }

/-- Second page of the 250-object backend: 100 keys and a token. -/
def page250b : ListResponse :=
  { keyCount := 100, contents := (List.range 100).map (fun i => key250 (100 + i)),
    nextContinuationToken := some "token2" }

/-- Last page of the 250-object backend: 50 keys, no token. -/
def page250c : ListResponse :=
  { keyCount := 50, contents := (List.range 50).map (fun i => key250 (200 + i)),
    nextContinuationToken := none }

/-- The 250-object backend returning three pages. -/
def pages250 : List ListResponse := [page250a, page250b, page250c]

/-- Constant metadata for the 250-object scenario. -/
def attr250 : String → FileAttr := fun _ => { size := 1, modified_time := 0 }

/-- The three pages list exactly the keys `key250 0 … key250 249`. -/
theorem pages250_flat :
    (pages250.flatMap fun r => r.contents) = (List.range 250).map key250 := by
  have h1 : (250 : Nat) = 200 + 50 := rfl
  have h2 : (200 : Nat) = 100 + 100 := rfl
  rw [h1, List.range_add, h2, List.range_add]
  simp only [List.map_append, List.map_map]
  simp [pages250, page250a, page250b, page250c, Function.comp_def, Nat.add_assoc]

/-- No key repeats across the three pages. -/
theorem pages250_nodup : (pages250.flatMap fun r => r.contents).Nodup := by
  rw [pages250_flat]
  exact List.Nodup.map key250_injective (List.nodup_range 250)

/-- The keyword arguments of a single prefix-less listing call on bucket
`bkt`. -/
def c5Kwargs : ListKwargs :=
  { bucket := "bkt", maxKeys := MAX_OBJECTS_PER_QUERY, pfx := none,
    continuationToken := none }

/-- C5: every `list_objects_v2` call the Lister issues carries
`MaxKeys = MAX_OBJECTS_PER_QUERY = 100`; on a page with objects the loop
stops after that call exactly when the response omits the continuation
token (its absence is success-and-stop, not an error); and on the backend
returning 250 objects across three pages, the Lister performs exactly 3
list calls and aggregates all 250 entries. -/
theorem C5_pagination :
    (∀ (bucket : String) (pages : List ListResponse) (ho : String → FileAttr)
        (directory : Option String) (fp : Option PyPattern),
        ∀ c ∈ (list_files bucket pages ho directory fp).1,
          c.maxKeys = MAX_OBJECTS_PER_QUERY)
    ∧ (∀ (ho : String → FileAttr) (fp : Option PyPattern) (kwargs : ListKwargs)
        (acc : List (String × FileAttr)) (r : ListResponse)
        (rest : List ListResponse),
        r.keyCount ≠ 0 →
        (r.nextContinuationToken.isSome = true → rest ≠ []) →
        ((list_files_loop ho fp (r :: rest) kwargs acc).1.length = 1
          ↔ r.nextContinuationToken = none))
    ∧ (list_files "bkt" pages250 attr250 none none).1.length = 3
    ∧ (list_files "bkt" pages250 attr250 none none).2
        = some ((pages250.flatMap fun r => r.contents).map
            (fun key => (key, attr250 key))) := by
  refine ⟨?_, ?_, ?_, ?_⟩
  · intro bucket pages ho directory fp c hc
    rw [list_files] at hc
    exact list_files_loop_maxKeys ho fp pages _ [] c hc
  · intro ho fp kwargs acc r rest hk hwf
    cases htok : r.nextContinuationToken with
    | none =>
        rw [list_files_loop, if_pos hk, htok]
        simp
    | some tok =>
        rw [list_files_loop, if_pos hk, htok]
        simp only [List.length_cons]
        constructor
        · intro hlen
          have hne : rest ≠ [] := hwf (by rw [htok]; rfl)
          cases rest with
          | nil => exact absurd rfl hne
          | cons r2 rs =>
              have hnil := list_files_loop_trace_ne_nil ho fp r2 rs
                { kwargs with continuationToken := some tok }
                (processContents fp ho r.contents acc)
              have hlen0 : (list_files_loop ho fp (r2 :: rs)
                  { kwargs with continuationToken := some tok }
                  (processContents fp ho r.contents acc)).1.length = 0 := by
                omega
              exact absurd (List.length_eq_zero.mp hlen0) hnil
        · intro hnone
          cases hnone
  · rw [list_files, list_files_loop_trace_length attr250 none pages250 _ []
      (by decide)]
    rfl
  · rw [list_files, list_files_loop_result attr250 none pages250 _ []
      (by decide) (by simpa using pages250_nodup)]
    rw [filterMap_entryOf_none]
    simp

/-- C5 witness: the `MaxKeys` cap at the concrete single-page listing of
`c4FullPage`, and the stop-on-missing-token equivalence at that page. -/
theorem C5_witness :
    c5Kwargs.maxKeys = MAX_OBJECTS_PER_QUERY
    ∧ ((list_files_loop c3Attr none [c4FullPage] c5Kwargs []).1.length = 1
        ↔ c4FullPage.nextContinuationToken = none) :=
  ⟨C5_pagination.1 "bkt" [c4FullPage] c3Attr none none c5Kwargs (by decide),
   C5_pagination.2.1 c3Attr none c5Kwargs [] c4FullPage [] (by decide) (by decide)⟩
